import Mathlib

/-!
Shallow embedding of the kb-create installation/update orchestration engine
(packages `internal/manifest`, `internal/config`, `internal/installer`,
`internal/pm`) for verification of the specification's claims.

Modelling conventions:
* machine state touched by the engine is explicit: the persisted snapshot
  store (`<platformDir>/.kb/kb.config.json` files) is a map from platform
  directory to an optional `PlatformConfig`;
* the package-manager capability is a record of outcome functions, and the
  engine functions additionally return the list of capability calls they made;
* Go map iteration order (in `pkgSet` / `Diff`) is nondeterministic in the
  source; it is determinized here by iterating the first-occurrence
  (`dedup`) order of the underlying lists — all claims about the diff are
  set-level, so this canonical order is faithful;
* JSON (de)serialization of the snapshot is modelled as the identity on
  records, `time.Now()` as an explicit `now : Nat` parameter, and
  `filepath.Abs` as the identity on paths;
* filesystem primitives that the claims do not exercise (`os.MkdirAll`,
  marshalling) are modelled as always succeeding; package-manager failures,
  the failure mode the error-handling claims are about, are explicit.
-/

namespace KbCreate

/-! ## internal/manifest (types.go) -/

/-- `manifest.Package`: a core npm package required by the platform. -/
structure Package where
  Name : String
deriving DecidableEq, Repr

/-- `manifest.Component`: an optional service or plugin. -/
structure Component where
  ID : String
  Pkg : String
  Description : String
  Default : Bool
deriving DecidableEq, Repr

/-- `manifest.Manifest`: all installable parts of the platform. -/
structure Manifest where
  Version : String
  RegistryURL : String
  Core : List Package
  Services : List Component
  Plugins : List Component
deriving DecidableEq, Repr

/-- `Manifest.CorePackageNames`: plain package name strings from Core. -/
def Manifest.CorePackageNames (m : Manifest) : List String :=
  m.Core.map (fun p => p.Name)

/-! ## internal/config (config.go) -/

/-- Go `configVersion = 1`. -/
def configVersion : Nat := 1

/-- `config.PlatformConfig`: the persistent state written to
`<platform>/.kb/kb.config.json`.  `InstalledAt` is the timestamp. -/
structure PlatformConfig where
  InstalledAt : Nat
  Platform : String
  CWD : String
  PM : String
  Manifest : Manifest
  Version : Nat
deriving DecidableEq, Repr

/-- Error kinds surfaced by `config.Read`: a missing snapshot file
("no config found at ... — is the platform installed?") or an unparsable
one. -/
inductive ConfigError
  | notFound (platformDir : String)
  | corrupt (platformDir : String)
deriving DecidableEq, Repr

/-- The snapshot store: for each platform directory, the snapshot record
currently on disk at `<dir>/.kb/kb.config.json`, if any. -/
def Store : Type := String → Option PlatformConfig

/-- `config.ConfigPath`: path of the config file for a platform directory
(`filepath.Join` modelled as `/`-concatenation). -/
def ConfigPath (platformDir : String) : String :=
  platformDir ++ "/.kb/kb.config.json"

/-- `config.Write`: persists the whole record to
`<platformDir>/.kb/kb.config.json`, replacing any previous snapshot there.
The source marshals the complete `PlatformConfig` and writes it in a single
`os.WriteFile` call. -/
def Write (platformDir : String) (cfg : PlatformConfig) (s : Store) : Store :=
  fun d => if d = platformDir then some cfg else s d

/-- `config.Read`: loads the snapshot at `platformDir`; a missing file is
reported as the not-found error kind. -/
def Read (platformDir : String) (s : Store) : Except ConfigError PlatformConfig :=
  match s platformDir with
  | none => .error (.notFound platformDir)
  | some cfg => .ok cfg

/-- `config.NewConfig`: a fresh record ready to be written
(`time.Now().UTC()` is the explicit `now` argument; `filepath.Abs` is the
identity here). -/
def NewConfig (platformDir cwd pmName : String) (m : Manifest) (now : Nat) :
    PlatformConfig :=
  { Version := configVersion
    Platform := platformDir
    CWD := cwd
    PM := pmName
    InstalledAt := now
    Manifest := m }

/-! ## internal/pm (pm.go) -/

/-- `pm.Progress`: one progress report from a capability call.  The Go
`Error` field is modelled as an optional message. -/
structure Progress where
  Err : Option String
  Package : String
  Line : String
  Done : Bool
deriving DecidableEq, Repr

/-- One call made on the package-manager capability by the engine. -/
inductive PMCall
  | install (dir : String) (pkgs : List String)
  | update (dir : String) (pkgs : List String)
deriving DecidableEq, Repr

/-- The package-manager capability (`pm.PackageManager`): its stable name
and, for each operation, the outcome the external tool would produce for
the given directory and package list. -/
structure PMCap where
  Name : String
  installRes : String → List String → Except String Unit
  updateRes : String → List String → Except String Unit

/-! ## internal/installer (installer.go) -/

/-- `installer.Selection`: what the user chose to install. -/
structure Selection where
  PlatformDir : String
  ProjectCWD : String
  Services : List String
  Plugins : List String
deriving DecidableEq, Repr

/-- `installer.Result` (Duration omitted — wall-clock time is outside the
model). -/
structure InstallResult where
  PlatformDir : String
  ProjectCWD : String
  ConfigPath : String
deriving DecidableEq, Repr

/-- `installer.UpdateDiff`. -/
structure UpdateDiff where
  Updated : List String
  Added : List String
  Removed : List String
deriving DecidableEq, Repr

/-- `UpdateDiff.HasChanges`: true if there is anything to update
(`len(Updated)+len(Added)+len(Removed) > 0`). -/
def UpdateDiff.HasChanges (d : UpdateDiff) : Bool :=
  decide (d.Updated.length + d.Added.length + d.Removed.length > 0)

/-- `installer.UpdateResult` (Duration omitted). -/
structure UpdateResult where
  Diff : UpdateDiff
deriving DecidableEq, Repr

/-- Errors returned by the engine: either a propagated config error
(returned unwrapped, as in the source) or an error wrapped with the failing
stage's name (`fmt.Errorf("<stage>: %w", err)`). -/
inductive InstallerError
  | configErr (e : ConfigError)
  | stageErr (stage : String) (e : String)
deriving DecidableEq, Repr

namespace Installer

/-- `Installer.selectedPkgs`: the `Pkg` of every component whose `ID` is in
`ids` (the source materializes `ids` as a set, so only membership matters),
in component order. -/
def selectedPkgs (components : List Component) (ids : List String) : List String :=
  (components.filter (fun c => ids.contains c.ID)).map (fun c => c.Pkg)

/-- The `allPkgs` list built at the top of `Installer.Install`: every core
package name, then the selected services' packages, then the selected
plugins' packages. -/
def installPkgs (m : Manifest) (sel : Selection) : List String :=
  m.CorePackageNames ++ selectedPkgs m.Services sel.Services
    ++ selectedPkgs m.Plugins sel.Plugins

/-- `Installer.Install`: runs the capability's install with the combined
package list in one invocation, then writes a fresh snapshot.  Returns the
capability calls made, the resulting store, and the result or wrapped
error.  On capability failure the snapshot write (and the project-dir
creation) is not attempted and the store is returned unchanged. -/
def Install (cap : PMCap) (store : Store) (sel : Selection) (m : Manifest)
    (now : Nat) : List PMCall × Store × Except InstallerError InstallResult :=
  let allPkgs := installPkgs m sel
  match cap.installRes sel.PlatformDir allPkgs with
  | .error e =>
      ([.install sel.PlatformDir allPkgs], store, .error (.stageErr "install" e))
  | .ok _ =>
      let cfg := NewConfig sel.PlatformDir sel.ProjectCWD cap.Name m now
      ([.install sel.PlatformDir allPkgs], Write sel.PlatformDir cfg store,
        .ok { PlatformDir := sel.PlatformDir
              ProjectCWD := sel.ProjectCWD
              ConfigPath := ConfigPath sel.PlatformDir })

end Installer

/-- `installer.pkgSet`: the set of package references of a manifest — core
names plus every service/plugin `Pkg`.  The Go code builds a
`map[string]bool`; here the set is the list of its keys in first-occurrence
order. -/
def pkgSet (m : Manifest) : List String :=
  (m.Core.map (fun p => p.Name)
    ++ (m.Services ++ m.Plugins).map (fun c => c.Pkg)).dedup

namespace Installer

/-- The classification loops of `Installer.Diff`: each key of the
candidate set goes to `Added` (absent from the installed set) or `Updated`
(present in it); each key of the installed set absent from the candidate
set goes to `Removed` (Go map iteration determinized to `dedup` order). -/
def diffOf (installed current : Manifest) : UpdateDiff :=
  { Added := (pkgSet current).filter (fun p => !(pkgSet installed).contains p)
    Updated := (pkgSet current).filter (fun p => (pkgSet installed).contains p)
    Removed := (pkgSet installed).filter (fun p => !(pkgSet current).contains p) }

/-- `Installer.Diff`: reads the snapshot and classifies every package
reference of the stored and candidate manifests. -/
def Diff (store : Store) (platformDir : String) (current : Manifest) :
    Except ConfigError UpdateDiff :=
  match Read platformDir store with
  | .error e => .error e
  | .ok cfg => .ok (diffOf cfg.Manifest current)

/-- The `allPkgs` list built inside `Installer.Update`: every core package
name of the candidate manifest plus every service/plugin package. -/
def updatePkgs (current : Manifest) : List String :=
  current.CorePackageNames ++ (current.Services ++ current.Plugins).map (fun c => c.Pkg)

/-- `Installer.Update`: computes the diff, installs the added packages when
there are any, updates the full candidate package set, then reloads the
snapshot, replaces only its manifest, and rewrites it.  Any failure leaves
the store unchanged and skips the remaining steps. -/
def Update (cap : PMCap) (store : Store) (platformDir : String)
    (current : Manifest) : List PMCall × Store × Except InstallerError UpdateResult :=
  match Diff store platformDir current with
  | .error e => ([], store, .error (.configErr e))
  | .ok diff =>
      let installCalls : List PMCall :=
        if diff.Added.length > 0 then [.install platformDir diff.Added] else []
      let installOutcome :=
        if diff.Added.length > 0 then cap.installRes platformDir diff.Added
        else .ok ()
      match installOutcome with
      | .error e => (installCalls, store, .error (.stageErr "add new packages" e))
      | .ok _ =>
          let allPkgs := updatePkgs current
          match cap.updateRes platformDir allPkgs with
          | .error e =>
              (installCalls ++ [.update platformDir allPkgs], store,
                .error (.stageErr "update packages" e))
          | .ok _ =>
              match Read platformDir store with
              | .error e =>
                  (installCalls ++ [.update platformDir allPkgs], store,
                    .error (.configErr e))
              | .ok cfg =>
                  let cfg' := { cfg with Manifest := current }
                  (installCalls ++ [.update platformDir allPkgs],
                    Write platformDir cfg' store, .ok { Diff := diff })

/-- The consumer loop of `Installer.runGroup`: drains the progress channel
in order, skipping empty lines and forwarding every other line to the log
(and `OnLine`).  `runGroup` closes the channel after the capability call
returns and blocks on `done` until this loop has consumed everything, so
the forwarded lines are exactly the drain of the full emission sequence. -/
def drainLoop : List Progress → List String
  | [] => []
  | p :: rest => if p.Line = "" then drainLoop rest else p.Line :: drainLoop rest

/-- `Installer.runGroup`, given the full sequence of progress values the
capability sent on the (FIFO, lossless) channel and the capability's
return value: the lines forwarded to the log sink before `runGroup`
returns, paired with the propagated result. -/
def runGroup (emitted : List Progress) (res : Except String Unit) :
    List String × Except String Unit :=
  (drainLoop emitted, res)

end Installer

/-! ## Snapshot-store operation traces (for the whole-record write invariant) -/

/-- A write of the snapshot store: the only mutating operation `config`
exposes; it always carries a complete record. -/
inductive StoreOp
  | writeOp (dir : String) (cfg : PlatformConfig)
deriving DecidableEq, Repr

/-- Apply a sequence of snapshot-store operations. -/
def applyOps : List StoreOp → Store → Store
  | [], s => s
  | .writeOp d c :: rest, s => applyOps rest (Write d c s)

/-! ## Theorems -/

/-- For any diff record, `HasChanges` is true iff the union of the three
component sets is non-empty. -/
theorem hasChanges_iff_union_nonempty (d : UpdateDiff) :
    d.HasChanges = true ↔
      (d.Added.toFinset ∪ d.Removed.toFinset ∪ d.Updated.toFinset).Nonempty := by
  rcases d with ⟨u, a, r⟩
  simp only [UpdateDiff.HasChanges, decide_eq_true_eq, Finset.Nonempty,
    Finset.mem_union, List.mem_toFinset]
  constructor
  · intro h
    rcases u with _ | ⟨x, u⟩
    · rcases a with _ | ⟨y, a⟩
      · rcases r with _ | ⟨z, r⟩
        · simp at h
        · exact ⟨z, Or.inl (Or.inr (by simp))⟩
      · exact ⟨y, Or.inl (Or.inl (by simp))⟩
    · exact ⟨x, Or.inr (by simp)⟩
  · rintro ⟨x, (hx | hx) | hx⟩ <;>
      have := List.length_pos_of_mem hx <;> simp_all

/-- The property C1 asserts of a Diff run against a stored snapshot `cfg`
and candidate manifest `current`: writing `S` for the installed reference
set and `C` for the candidate reference set, Diff succeeds with
`added = C \ S`, `removed = S \ C`, `updated = S ∩ C`, the three pairwise
disjoint, and `HasChanges` true iff their union is non-empty. -/
def DiffMatchesSetDifferences (store : Store) (platformDir : String)
    (cfg : PlatformConfig) (current : Manifest) : Prop :=
  ∃ d, Installer.Diff store platformDir current = Except.ok d ∧
    d.Added.toFinset = (pkgSet current).toFinset \ (pkgSet cfg.Manifest).toFinset ∧
    d.Removed.toFinset = (pkgSet cfg.Manifest).toFinset \ (pkgSet current).toFinset ∧
    d.Updated.toFinset = (pkgSet cfg.Manifest).toFinset ∩ (pkgSet current).toFinset ∧
    Disjoint d.Added.toFinset d.Removed.toFinset ∧
    Disjoint d.Added.toFinset d.Updated.toFinset ∧
    Disjoint d.Removed.toFinset d.Updated.toFinset ∧
    (d.HasChanges = true ↔
      (d.Added.toFinset ∪ d.Removed.toFinset ∪ d.Updated.toFinset).Nonempty)

/-- C1: for every stored snapshot with reference set S and candidate
manifest with reference set C, Diff returns exactly added = C\S,
removed = S\C, updated = S∩C; the three are pairwise disjoint; and
HasChanges is true iff their union is non-empty. -/
theorem Diff_computes_set_differences (store : Store) (platformDir : String)
    (cfg : PlatformConfig) (current : Manifest)
    (h : store platformDir = some cfg) :
    DiffMatchesSetDifferences store platformDir cfg current := by
  have hd : Installer.Diff store platformDir current = Except.ok
      { Added := (pkgSet current).filter (fun p => !(pkgSet cfg.Manifest).contains p)
        Updated := (pkgSet current).filter (fun p => (pkgSet cfg.Manifest).contains p)
        Removed := (pkgSet cfg.Manifest).filter (fun p => !(pkgSet current).contains p) } := by
    simp [Installer.Diff, Installer.diffOf, Read, h]
  have hA : ((pkgSet current).filter
        (fun p => !(pkgSet cfg.Manifest).contains p)).toFinset
      = (pkgSet current).toFinset \ (pkgSet cfg.Manifest).toFinset := by
    ext p
    simp [List.mem_filter, List.contains]
  have hR : ((pkgSet cfg.Manifest).filter
        (fun p => !(pkgSet current).contains p)).toFinset
      = (pkgSet cfg.Manifest).toFinset \ (pkgSet current).toFinset := by
    ext p
    simp [List.mem_filter, List.contains]
  have hU : ((pkgSet current).filter
        (fun p => (pkgSet cfg.Manifest).contains p)).toFinset
      = (pkgSet cfg.Manifest).toFinset ∩ (pkgSet current).toFinset := by
    ext p
    simp [List.mem_filter, List.contains]
    tauto
  refine ⟨_, hd, hA, hR, hU, ?_, ?_, ?_, hasChanges_iff_union_nonempty _⟩
  · rw [hA, hR]
    exact disjoint_sdiff_sdiff
  · rw [hA, hU]
    exact Finset.sdiff_disjoint.mono_right Finset.inter_subset_left
  · rw [hR, hU]
    exact Finset.sdiff_disjoint.mono_right Finset.inter_subset_right

/-- Sample manifest with package-reference set {A, B} (witness data). -/
def mAB : Manifest :=
  { Version := "1", RegistryURL := "", Core := [{ Name := "A" }, { Name := "B" }],
    Services := [], Plugins := [] }

/-- Sample candidate manifest with package-reference set {A, C} (witness
data). -/
def mAC : Manifest :=
  { Version := "2", RegistryURL := "", Core := [{ Name := "A" }, { Name := "C" }],
    Services := [], Plugins := [] }

/-- Sample snapshot recording an install of `mAB` (witness data). -/
def cfgAB : PlatformConfig :=
  { InstalledAt := 5, Platform := "/p", CWD := "/w", PM := "npm",
    Manifest := mAB, Version := 1 }

/-- Sample store holding `cfgAB` at platform directory "/p" (witness
data). -/
def storeAB : Store := fun d => if d = "/p" then some cfgAB else none

/-- Witness for C1, at the spec's scenario: snapshot {A, B}, candidate
{A, C}. -/
theorem Diff_computes_set_differences_witness :
    storeAB "/p" = some cfgAB ∧ DiffMatchesSetDifferences storeAB "/p" cfgAB mAC :=
  ⟨rfl, Diff_computes_set_differences storeAB "/p" cfgAB mAC rfl⟩

/-- Membership in `selectedPkgs`: exactly the packages of components whose
id is among the chosen ids. -/
theorem mem_selectedPkgs (components : List Component) (ids : List String)
    (p : String) :
    p ∈ Installer.selectedPkgs components ids ↔
      ∃ c ∈ components, c.ID ∈ ids ∧ c.Pkg = p := by
  unfold Installer.selectedPkgs
  simp [List.mem_filter, List.contains, and_assoc]

/-- C2: Install passes to the package manager, in a single invocation,
exactly the set of core package names plus the `Pkg` of every
service/plugin component whose id is among the chosen ids; an unknown
chosen id contributes nothing, and a duplicated valid id contributes no
duplicate. -/
theorem Install_passes_selected_refs (cap : PMCap) (store : Store)
    (sel : Selection) (m : Manifest) (now : Nat) :
    (Installer.Install cap store sel m now).1 =
      [PMCall.install sel.PlatformDir (Installer.installPkgs m sel)] ∧
    (∀ p, p ∈ Installer.installPkgs m sel ↔
      (p ∈ m.CorePackageNames ∨
        (∃ c ∈ m.Services, c.ID ∈ sel.Services ∧ c.Pkg = p) ∨
        (∃ c ∈ m.Plugins, c.ID ∈ sel.Plugins ∧ c.Pkg = p))) ∧
    (∀ (components : List Component) (ids : List String) (x : String),
      (∀ c ∈ components, c.ID ≠ x) →
        Installer.selectedPkgs components (x :: ids) =
          Installer.selectedPkgs components ids) ∧
    (∀ (components : List Component) (ids : List String),
      Installer.selectedPkgs components ids.dedup =
        Installer.selectedPkgs components ids) := by
  refine ⟨?_, ?_, ?_, ?_⟩
  · rcases hres : cap.installRes sel.PlatformDir (Installer.installPkgs m sel)
       with e | u <;> simp [Installer.Install, hres]
  · intro p
    simp [Installer.installPkgs, mem_selectedPkgs]
  · intro components ids x hx
    unfold Installer.selectedPkgs
    congr 1
    apply List.filter_congr
    intro c hc
    simp [List.contains, List.elem_eq_mem, List.mem_cons, hx c hc]
  · intro components ids
    unfold Installer.selectedPkgs
    congr 1
    apply List.filter_congr
    intro c _
    simp [List.contains, List.elem_eq_mem, List.mem_dedup]

/-- The property C10 asserts of the install package list for manifest `m`
and two membership-equivalent selections `sel`, `sel'`: the list is the
core names, then the selected services' packages, then the selected
plugins' packages, each group in manifest order; the list is the same for
`sel'`; counts add across the three groups; and a reference occurring both
in core and in a selected service occurs at least twice. -/
def InstallListCanonical (m : Manifest) (sel sel' : Selection) : Prop :=
  Installer.installPkgs m sel =
    m.CorePackageNames ++ Installer.selectedPkgs m.Services sel.Services
      ++ Installer.selectedPkgs m.Plugins sel.Plugins ∧
  Installer.installPkgs m sel = Installer.installPkgs m sel' ∧
  (∀ p, (Installer.installPkgs m sel).count p =
    m.CorePackageNames.count p
      + (Installer.selectedPkgs m.Services sel.Services).count p
      + (Installer.selectedPkgs m.Plugins sel.Plugins).count p) ∧
  (∀ p, p ∈ m.CorePackageNames →
    p ∈ Installer.selectedPkgs m.Services sel.Services →
      2 ≤ (Installer.installPkgs m sel).count p)

/-- C10: the install package list is the core names in manifest order,
then the selected services' packages in manifest order, then the selected
plugins' packages in manifest order; it depends only on the membership of
the chosen id lists; and counts add across the three groups (no
deduplication), so a reference occurring both in core and in a selected
component occurs at least twice. -/
theorem installPkgs_canonical_and_undeduplicated (m : Manifest)
    (sel sel' : Selection)
    (hs : ∀ x, x ∈ sel.Services ↔ x ∈ sel'.Services)
    (hp : ∀ x, x ∈ sel.Plugins ↔ x ∈ sel'.Plugins) :
    InstallListCanonical m sel sel' := by
  unfold InstallListCanonical
  have hsel : ∀ (components : List Component) (ids ids' : List String),
      (∀ x, x ∈ ids ↔ x ∈ ids') →
        Installer.selectedPkgs components ids =
          Installer.selectedPkgs components ids' := by
    intro components ids ids' hiff
    unfold Installer.selectedPkgs
    congr 1
    apply List.filter_congr
    intro c _
    simp [List.contains, List.elem_eq_mem, hiff c.ID]
  have hcount : ∀ p, (Installer.installPkgs m sel).count p =
      m.CorePackageNames.count p
        + (Installer.selectedPkgs m.Services sel.Services).count p
        + (Installer.selectedPkgs m.Plugins sel.Plugins).count p := by
    intro p
    simp only [Installer.installPkgs, List.count_append]
  refine ⟨rfl, ?_, hcount, ?_⟩
  · unfold Installer.installPkgs
    rw [hsel m.Services sel.Services sel'.Services hs,
      hsel m.Plugins sel.Plugins sel'.Plugins hp]
  · intro p hcore hserv
    have h1 : 1 ≤ m.CorePackageNames.count p := List.count_pos_iff.mpr hcore
    have h2 : 1 ≤ (Installer.selectedPkgs m.Services sel.Services).count p :=
      List.count_pos_iff.mpr hserv
    have := hcount p
    omega

/-- Sample manifest whose service s1 references the same package A as core
(witness data). -/
def mSvc : Manifest :=
  { Version := "1", RegistryURL := ""
    Core := [{ Name := "A" }]
    Services := [{ ID := "s1", Pkg := "A", Description := "", Default := true }]
    Plugins := [] }

/-- Selection choosing service s1 once (witness data). -/
def selS1 : Selection :=
  { PlatformDir := "/p", ProjectCWD := "/w", Services := ["s1"], Plugins := [] }

/-- Selection choosing service s1 twice (witness data). -/
def selS1dup : Selection :=
  { PlatformDir := "/p", ProjectCWD := "/w", Services := ["s1", "s1"],
    Plugins := [] }

/-- Witness for C10: the selections {s1} and {s1, s1} are
membership-equivalent, and the canonical-order property holds for them on
`mSvc`. -/
theorem installPkgs_canonical_and_undeduplicated_witness :
    (∀ x, x ∈ selS1.Services ↔ x ∈ selS1dup.Services) ∧
    (∀ x, x ∈ selS1.Plugins ↔ x ∈ selS1dup.Plugins) ∧
    InstallListCanonical mSvc selS1 selS1dup :=
  ⟨fun x => by simp [selS1, selS1dup],
    fun x => by simp [selS1, selS1dup],
    installPkgs_canonical_and_undeduplicated mSvc selS1 selS1dup
      (fun x => by simp [selS1, selS1dup])
      (fun x => by simp [selS1, selS1dup])⟩

/-- Always-succeeding package-manager capability (witness data). -/
def capOK : PMCap :=
  { Name := "npm"
    installRes := fun _ _ => Except.ok ()
    updateRes := fun _ _ => Except.ok () }

/-- Empty snapshot store: no platform directory holds a snapshot (witness
data). -/
def storeEmpty : Store := fun _ => none

/-- C3: after a successful Install with manifest M at platform directory
P, reading the snapshot at P from the resulting store returns a record
whose stored manifest equals M and whose package-manager name equals the
capability's name. -/
theorem Install_snapshot_roundtrip (cap : PMCap) (store : Store)
    (sel : Selection) (m : Manifest) (now : Nat) (r : InstallResult)
    (h : (Installer.Install cap store sel m now).2.2 = Except.ok r) :
    ∃ cfg, Read sel.PlatformDir (Installer.Install cap store sel m now).2.1 =
        Except.ok cfg ∧ cfg.Manifest = m ∧ cfg.PM = cap.Name := by
  rcases hres : cap.installRes sel.PlatformDir (Installer.installPkgs m sel)
    with e | u
  · exfalso
    simp [Installer.Install, hres] at h
  · refine ⟨NewConfig sel.PlatformDir sel.ProjectCWD cap.Name m now, ?_, rfl, rfl⟩
    simp [Installer.Install, hres, Read, Write]

/-- Witness for C3: a successful Install of `mSvc` with `capOK` on the
empty store round-trips through Read. -/
theorem Install_snapshot_roundtrip_witness :
    (Installer.Install capOK storeEmpty selS1 mSvc 7).2.2 =
      Except.ok { PlatformDir := "/p", ProjectCWD := "/w",
                  ConfigPath := ConfigPath "/p" } ∧
    (∃ cfg, Read selS1.PlatformDir
        (Installer.Install capOK storeEmpty selS1 mSvc 7).2.1 = Except.ok cfg ∧
      cfg.Manifest = mSvc ∧ cfg.PM = capOK.Name) :=
  ⟨rfl, Install_snapshot_roundtrip capOK storeEmpty selS1 mSvc 7 _ rfl⟩

/-- C6: at a platform directory with no snapshot, Diff fails with the
not-found error kind, and Update (which begins with Diff) fails the same
way with no capability call and no store change. -/
theorem Diff_requires_prior_install (store : Store) (platformDir : String)
    (current : Manifest) (h : store platformDir = none) :
    Installer.Diff store platformDir current =
      Except.error (ConfigError.notFound platformDir) ∧
    (∀ cap, Installer.Update cap store platformDir current =
      ([], store, Except.error (InstallerError.configErr
        (ConfigError.notFound platformDir)))) := by
  have hd : Installer.Diff store platformDir current =
      Except.error (.notFound platformDir) := by
    simp [Installer.Diff, Read, h]
  refine ⟨hd, fun cap => ?_⟩
  simp [Installer.Update, hd]

/-- Witness for C6: the empty store at "/p". -/
theorem Diff_requires_prior_install_witness :
    storeEmpty "/p" = none ∧
    (Installer.Diff storeEmpty "/p" mAC =
      Except.error (ConfigError.notFound "/p") ∧
    (∀ cap, Installer.Update cap storeEmpty "/p" mAC =
      ([], storeEmpty, Except.error (InstallerError.configErr
        (ConfigError.notFound "/p"))))) :=
  ⟨rfl, Diff_requires_prior_install storeEmpty "/p" mAC rfl⟩

/-- Inversion of a successful Update: the store held a snapshot `cfg`, the
diff succeeded with the result's diff, both capability stages succeeded,
and Update's full result is the two-stage call trace, the store rewritten
at `platformDir` with only the manifest replaced, and the diff. -/
theorem Update_ok_inv (cap : PMCap) (store : Store) (platformDir : String)
    (current : Manifest) (r : UpdateResult)
    (h : (Installer.Update cap store platformDir current).2.2 = Except.ok r) :
    ∃ cfg, store platformDir = some cfg ∧
      Installer.Diff store platformDir current = Except.ok r.Diff ∧
      (if r.Diff.Added.length > 0 then cap.installRes platformDir r.Diff.Added
        else Except.ok ()) = Except.ok () ∧
      cap.updateRes platformDir (Installer.updatePkgs current) = Except.ok () ∧
      Installer.Update cap store platformDir current =
        ((if r.Diff.Added.length > 0
            then [PMCall.install platformDir r.Diff.Added] else [])
          ++ [PMCall.update platformDir (Installer.updatePkgs current)],
          Write platformDir { cfg with Manifest := current } store,
          Except.ok r) := by
  rcases hs : store platformDir with _ | cfg
  · exfalso
    simp [Installer.Update, Installer.Diff, Read, hs] at h
  · have hdiff : Installer.Diff store platformDir current =
        Except.ok (Installer.diffOf cfg.Manifest current) := by
      simp [Installer.Diff, Read, hs]
    rcases hio : (if (Installer.diffOf cfg.Manifest current).Added.length > 0
        then cap.installRes platformDir (Installer.diffOf cfg.Manifest current).Added
        else Except.ok ()) with e | u
    · exfalso
      simp [Installer.Update, hdiff, hio] at h
    · cases u
      rcases huo : cap.updateRes platformDir (Installer.updatePkgs current)
        with e | v
      · exfalso
        simp [Installer.Update, hdiff, hio, huo] at h
      · cases v
        have hr : r = { Diff := Installer.diffOf cfg.Manifest current } := by
          simp [Installer.Update, hdiff, hio, huo, Read, hs] at h
          exact h.symm
        subst hr
        refine ⟨cfg, ?_, ?_, ?_, ?_, ?_⟩
        · rfl
        · exact hdiff
        · exact hio
        · rfl
        · simp [Installer.Update, hdiff, hio, huo, Read, hs]

/-- The property C4 asserts of a successful Update: the store held a
snapshot before; afterwards the snapshot at `platformDir` is that record
with only its manifest replaced by the candidate (installedAt, platform,
cwd, pm and schema version all unchanged), and every other directory's
snapshot is untouched. -/
def UpdateOnlyManifestChanged (cap : PMCap) (store : Store)
    (platformDir : String) (current : Manifest) : Prop :=
  ∃ cfg, store platformDir = some cfg ∧
    (Installer.Update cap store platformDir current).2.1 platformDir =
      some { cfg with Manifest := current } ∧
    (∀ d, d ≠ platformDir →
      (Installer.Update cap store platformDir current).2.1 d = store d) ∧
    ({ cfg with Manifest := current }).InstalledAt = cfg.InstalledAt ∧
    ({ cfg with Manifest := current }).Platform = cfg.Platform ∧
    ({ cfg with Manifest := current }).CWD = cfg.CWD ∧
    ({ cfg with Manifest := current }).PM = cfg.PM ∧
    ({ cfg with Manifest := current }).Version = cfg.Version ∧
    ({ cfg with Manifest := current }).Manifest = current

/-- C4: after a successful Update the persisted snapshot differs from the
one before only in its stored manifest, which becomes the candidate
manifest; installedAt and the platform, cwd, pm and schema-version fields
are unchanged. -/
theorem Update_changes_only_manifest (cap : PMCap) (store : Store)
    (platformDir : String) (current : Manifest) (r : UpdateResult)
    (h : (Installer.Update cap store platformDir current).2.2 = Except.ok r) :
    UpdateOnlyManifestChanged cap store platformDir current := by
  obtain ⟨cfg, hs, _, _, _, heq⟩ := Update_ok_inv cap store platformDir current r h
  refine ⟨cfg, hs, ?_, ?_, rfl, rfl, rfl, rfl, rfl, rfl⟩
  · rw [heq]
    simp [Write]
  · intro d hd
    rw [heq]
    simp [Write, hd]

/-- Witness for C4: a successful Update of the {A, B} snapshot to the
{A, C} manifest. -/
theorem Update_changes_only_manifest_witness :
    (Installer.Update capOK storeAB "/p" mAC).2.2 =
      Except.ok { Diff := { Updated := ["A"], Added := ["C"], Removed := ["B"] } } ∧
    UpdateOnlyManifestChanged capOK storeAB "/p" mAC :=
  ⟨rfl, Update_changes_only_manifest capOK storeAB "/p" mAC _ rfl⟩

/-- C7: on a successful Update, the capability's install is invoked with
exactly the diff's added references when that set is non-empty (and not at
all when it is empty), and afterwards the capability's update is invoked,
unconditionally, with the full reference set of the candidate manifest
(core plus every service and plugin package, with no selection
filtering). -/
theorem Update_invokes_install_then_update (cap : PMCap) (store : Store)
    (platformDir : String) (current : Manifest) (r : UpdateResult)
    (h : (Installer.Update cap store platformDir current).2.2 = Except.ok r) :
    Installer.Diff store platformDir current = Except.ok r.Diff ∧
    (Installer.Update cap store platformDir current).1 =
      (if r.Diff.Added.length > 0
        then [PMCall.install platformDir r.Diff.Added] else [])
        ++ [PMCall.update platformDir (Installer.updatePkgs current)] ∧
    Installer.updatePkgs current = current.CorePackageNames
      ++ (current.Services ++ current.Plugins).map (fun c => c.Pkg) := by
  obtain ⟨cfg, _, hdiff, _, _, heq⟩ := Update_ok_inv cap store platformDir current r h
  exact ⟨hdiff, by rw [heq], rfl⟩

/-- Witness for C7: the successful Update of the {A, B} snapshot to the
{A, C} manifest makes an install call with ["C"] then an update call with
["A", "C"]. -/
theorem Update_invokes_install_then_update_witness :
    (Installer.Update capOK storeAB "/p" mAC).2.2 =
      Except.ok { Diff := { Updated := ["A"], Added := ["C"], Removed := ["B"] } } ∧
    (Installer.Diff storeAB "/p" mAC =
      Except.ok ({ Updated := ["A"], Added := ["C"], Removed := ["B"] } : UpdateDiff) ∧
    (Installer.Update capOK storeAB "/p" mAC).1 =
      (if (["C"] : List String).length > 0 then [PMCall.install "/p" ["C"]] else [])
        ++ [PMCall.update "/p" (Installer.updatePkgs mAC)] ∧
    Installer.updatePkgs mAC = mAC.CorePackageNames
      ++ (mAC.Services ++ mAC.Plugins).map (fun c => c.Pkg)) :=
  ⟨rfl, Update_invokes_install_then_update capOK storeAB "/p" mAC _ rfl⟩

/-- C5: a package-manager capability failure during Install or Update
returns an error wrapped with the failing stage's name, leaves the store
(and hence any previously persisted snapshot) exactly as it was, and makes
no further capability call: Install's config-write step is not attempted
after an install failure, and Update's snapshot rewrite is not attempted
after a failure of its install or its update capability call. -/
theorem capability_failure_aborts_and_preserves_store (cap : PMCap)
    (store : Store) :
    (∀ (sel : Selection) (m : Manifest) (now : Nat) (e : String),
      cap.installRes sel.PlatformDir (Installer.installPkgs m sel) =
          Except.error e →
        Installer.Install cap store sel m now =
          ([PMCall.install sel.PlatformDir (Installer.installPkgs m sel)],
            store, Except.error (InstallerError.stageErr "install" e))) ∧
    (∀ (platformDir : String) (current : Manifest) (diff : UpdateDiff)
        (e : String),
      Installer.Diff store platformDir current = Except.ok diff →
      diff.Added.length > 0 →
      cap.installRes platformDir diff.Added = Except.error e →
        Installer.Update cap store platformDir current =
          ([PMCall.install platformDir diff.Added], store,
            Except.error (InstallerError.stageErr "add new packages" e))) ∧
    (∀ (platformDir : String) (current : Manifest) (diff : UpdateDiff)
        (e : String),
      Installer.Diff store platformDir current = Except.ok diff →
      (if diff.Added.length > 0 then cap.installRes platformDir diff.Added
        else Except.ok ()) = Except.ok () →
      cap.updateRes platformDir (Installer.updatePkgs current) =
          Except.error e →
        Installer.Update cap store platformDir current =
          ((if diff.Added.length > 0
              then [PMCall.install platformDir diff.Added] else [])
            ++ [PMCall.update platformDir (Installer.updatePkgs current)],
            store,
            Except.error (InstallerError.stageErr "update packages" e))) := by
  refine ⟨?_, ?_, ?_⟩
  · intro sel m now e hres
    simp [Installer.Install, hres]
  · intro platformDir current diff e hdiff hlen hres
    simp [Installer.Update, hdiff, hlen, hres]
  · intro platformDir current diff e hdiff hio hres
    simp [Installer.Update, hdiff, hio, hres]

/-- C8: the snapshot store is only ever mutated by whole-record writes:
after any sequence of write operations, the snapshot on disk at any
directory is either the initial one or exactly some complete record that
was passed to Write for that directory — no partial or field-wise-merged
snapshot ever exists. -/
theorem snapshot_store_holds_whole_written_records (ops : List StoreOp)
    (s0 : Store) (dir : String) :
    applyOps ops s0 dir = s0 dir ∨
      ∃ cfg, StoreOp.writeOp dir cfg ∈ ops ∧ applyOps ops s0 dir = some cfg := by
  induction ops generalizing s0 with
  | nil => exact Or.inl rfl
  | cons op rest ih =>
    rcases op with ⟨d, c⟩
    have hstep : applyOps (StoreOp.writeOp d c :: rest) s0 =
        applyOps rest (Write d c s0) := rfl
    rcases ih (Write d c s0) with h | ⟨cfg, hmem, hval⟩
    · by_cases hd : dir = d
      · subst hd
        refine Or.inr ⟨c, List.mem_cons_self _ _, ?_⟩
        rw [hstep, h]
        simp [Write]
      · refine Or.inl ?_
        rw [hstep, h]
        simp [Write, hd]
    · exact Or.inr ⟨cfg, List.mem_cons_of_mem _ hmem, by rw [hstep, hval]⟩

/-- The drain loop forwards, in order, exactly the non-empty lines of the
emitted sequence. -/
theorem drainLoop_eq_filter (l : List Progress) :
    Installer.drainLoop l =
      (l.filter (fun p => !(p.Line == ""))).map (fun p => p.Line) := by
  induction l with
  | nil => rfl
  | cons p rest ih =>
    by_cases hp : p.Line = "" <;> simp [Installer.drainLoop, hp, ih]

/-- C9: for a capability invocation that emits a sequence of progress
values on the channel, the lines forwarded to the log sink (and OnLine)
by the time the orchestration call returns are exactly the non-empty
emitted lines, in order: their number is the number of non-empty emitted
lines, no empty line is ever forwarded, and the capability's result is
propagated unchanged. -/
theorem runGroup_forwards_exactly_nonempty_lines (emitted : List Progress)
    (res : Except String Unit) :
    (Installer.runGroup emitted res).1 =
      (emitted.filter (fun p => !(p.Line == ""))).map (fun p => p.Line) ∧
    (Installer.runGroup emitted res).1.length =
      (emitted.filter (fun p => !(p.Line == ""))).length ∧
    (∀ l ∈ (Installer.runGroup emitted res).1, l ≠ "") ∧
    (Installer.runGroup emitted res).2 = res := by
  refine ⟨drainLoop_eq_filter emitted, ?_, ?_, rfl⟩
  · simp [Installer.runGroup, drainLoop_eq_filter]
  · intro l hl
    simp only [Installer.runGroup, drainLoop_eq_filter, List.mem_map,
      List.mem_filter] at hl
    rcases hl with ⟨p, ⟨_, hp⟩, rfl⟩
    simpa using hp

end KbCreate
